import Mathlib

/-!
# hostschecker: a verification development

Shallow embedding of `hostschecker.go` and proofs about its line parser
(`ParseLine`), pair generator (`GenPairs`), probe workers (`ConsumePairs`,
`Hello`) and byte-order-mark stripping (`TrimU8Bom`).

Modelling conventions.

* A Go `string` is represented by the sequence of runes that ranging over it
  yields (`GoString = List Char`).  `'#'` and the ASCII white space are one-byte
  runes, so `s[0] == '#'`, `len(s) == 0`, `strings.IndexRune(s, '#')` and the
  slice `s[:i]` at that index act on the rune sequence exactly as they act on
  the bytes.
* A call that can panic at run time (`data[0]`) returns `Option`; `none` is the
  panic.
* Library calls whose result is decided outside the program (the network, the
  address syntax check of `net/netip`) are parameters of the model.
* `ConsumePairs` is given twice: as a function, for `DialThreadsLimit = 1`,
  where the workers run one after the other; and as a transition system over
  the statements of its goroutines, for any limit, where a schedule is an
  interleaving.  The body of a worker goroutine is the function `worker` in
  both: `pool_worker_runs_worker` shows that the statements of a worker in the
  transition system compute it.
-/

namespace HostsChecker

/-! ## Strings -/

/-- A Go string as its sequence of runes. -/
abbrev GoString := List Char

/-- Go `unicode.IsSpace`: the Latin-1 white space characters
`'\t' '\n' '\v' '\f' '\r' ' ' U+0085 U+00A0`, and outside Latin-1 the code
points with the Unicode White_Space property. -/
def IsSpace (r : Char) : Bool :=
  if r.toNat ≤ 0xFF then
    r.toNat = 0x09 || r.toNat = 0x0A || r.toNat = 0x0B || r.toNat = 0x0C || r.toNat = 0x0D
      || r.toNat = 0x20 || r.toNat = 0x85 || r.toNat = 0xA0
  else
    r.toNat = 0x1680 || (0x2000 ≤ r.toNat && r.toNat ≤ 0x200A) || r.toNat = 0x2028
      || r.toNat = 0x2029 || r.toNat = 0x202F || r.toNat = 0x205F || r.toNat = 0x3000

/-- Go `strings.TrimLeftFunc`: drop the leading runes satisfying `f`. -/
def TrimLeftFunc (s : GoString) (f : Char → Bool) : GoString :=
  s.dropWhile f

/-- Go `strings.TrimRightFunc`: drop the trailing runes satisfying `f`. -/
def TrimRightFunc (s : GoString) (f : Char → Bool) : GoString :=
  (s.reverse.dropWhile f).reverse

/-- Go `strings.TrimSpace`: all leading and trailing white space removed. -/
def TrimSpace (s : GoString) : GoString :=
  TrimRightFunc (TrimLeftFunc s IsSpace) IsSpace

/-- Position of the first element equal to `r`, counted from `i`. -/
def indexFrom (r : Char) : GoString → Nat → Option Nat
  | [], _ => none
  | c :: cs, i => if c = r then some i else indexFrom r cs (i + 1)

/-- Go `strings.IndexRune`: index of the first instance of `r`, or `-1`. -/
def IndexRune (s : GoString) (r : Char) : Int :=
  match indexFrom r s 0 with
  | some i => (i : Int)
  | none => -1

/-- The loop of Go `strings.FieldsFunc`: `cur` is the field being read (empty
when the loop is between fields); a white space rune closes it. -/
def fieldsLoop : GoString → GoString → List GoString
  | [], cur => if cur = [] then [] else [cur]
  | c :: cs, cur =>
    if IsSpace c then
      (if cur = [] then fieldsLoop cs [] else cur :: fieldsLoop cs [])
    else fieldsLoop cs (cur ++ [c])

/-- Go `strings.Fields`: the substrings between runs of white space. -/
def Fields (s : GoString) : List GoString :=
  fieldsLoop s []

/-! ## The line parser -/

/-- `ParseLine` of `hostschecker.go`.  The named results `ip`, `hostnames`
start as `""` and `nil`, which the bare `return` yields.  `none` stands for the
run-time panic of `data[0]` on an empty `data`. -/
def ParseLine (line : GoString) : Option (GoString × List GoString) :=
  let line_trimmed := TrimSpace line
  if line_trimmed.length = 0 ∨ line_trimmed.head? = some '#' then
    some ([], [])
  else
    let hash_ndx := IndexRune line_trimmed '#'
    let line_trimmed :=
      if hash_ndx ≠ -1 then line_trimmed.take hash_ndx.toNat else line_trimmed
    let data := Fields line_trimmed
    match data[0]? with
    | none => none
    | some ip => some (ip, data.drop 1)

/-! ### What the specification says about a line -/

/-- The text of a line before its first `#`; the whole line when it has none. -/
def beforeHash (line : GoString) : GoString :=
  line.takeWhile (fun c => c != '#')

/-- Splitting on runs of white space, in the specification's words: cut the
text at every white space character and keep the non-empty pieces. -/
def tokens (s : GoString) : List GoString :=
  (s.splitOnP IsSpace).filter (fun t => !t.isEmpty)

/-! ## The pair generator -/

/-- `Pair` of `hostschecker.go`. -/
structure Pair where
  IP : GoString
  Hostname : GoString
deriving DecidableEq, Repr

/-- `GenPairs` of `hostschecker.go`, as the function from the lines that
`scanner.Scan()` yields to the sequence of pairs sent on `ch`.

`parseAddrOk ip` says whether `netip.ParseAddr(ip)` returns a nil error; the
address syntax is the library's and is a parameter here.  `none` is a panic
inside the loop (from `ParseLine`). -/
def GenPairs (parseAddrOk : GoString → Bool) : List GoString → Option (List Pair)
  | [] => some []
  | line :: rest =>
    match ParseLine line with
    | none => none
    | some (ip, hostnames) =>
      if ip = [] then
        GenPairs parseAddrOk rest
      else if !parseAddrOk ip then
        GenPairs parseAddrOk rest
      else
        (GenPairs parseAddrOk rest).map
          (fun sent => hostnames.map (fun hostname => Pair.mk ip hostname) ++ sent)

/-! ## Probing -/

/-- A Go `error` value as the program observes it: whether `os.IsTimeout`
holds of it, and the text `Error()` returns. -/
structure GoError where
  Timeout : Bool
  Error : GoString
deriving DecidableEq, Repr

/-- What the network answers to one call of `Hello`: the error of
`net.DialTimeout` (`none` for a nil error, the connection is open) and the
error of `tls_conn.HandshakeContext` (consulted only on an open connection). -/
structure Probe where
  dial : Option GoError
  handshake : Option GoError
deriving DecidableEq, Repr

/-- Go `os.IsTimeout`; false of a nil error. -/
def IsTimeout : Option GoError → Bool
  | none => false
  | some err => err.Timeout

/-- `Hello` of `hostschecker.go`.  The global `timedoutIP` is passed in and
returned; the set is a list of its keys. -/
def Hello (net : Probe) (p : Pair) (timedoutIP : List GoString) :
    (Bool × Option GoError) × List GoString :=
  match net.dial with
  | some err =>
    if IsTimeout (some err) then
      ((false, some err), p.IP :: timedoutIP)
    else
      ((false, some err), timedoutIP)
  | none =>
    match net.handshake with
    | some err => ((false, some err), timedoutIP)
    | none => ((true, none), timedoutIP)

/-- The text `fmt.Sprint` gives a `Pair` operand: `{IP Hostname}`. -/
def SprintPair (p : Pair) : GoString :=
  '{' :: p.IP ++ ' ' :: p.Hostname ++ ['}']

/-- The text `fmt.Sprint` gives an `error` operand. -/
def SprintError : Option GoError → GoString
  | none => "<nil>".toList
  | some err => err.Error

/-- What became of one pair received from `ch`. -/
structure Attempt where
  /-- `Hello` was called, so the address was dialed. -/
  dialed : Bool
  /-- `Hello` returned `true`: the TLS handshake succeeded. -/
  ok : Bool
  /-- The entries sent on `result` for the pair. -/
  sent : List GoString
deriving DecidableEq, Repr

/-- The worker goroutine `go func(p Pair)` of `ConsumePairs`, whatever the
limit: from the content of `timedoutIP` when it tests it and the answer of the
network, what it does and the content of `timedoutIP` it leaves.
`fmt.Sprint(p, " i/o timeout")` puts no space between the operands (one is a
string); `fmt.Sprint(p, err)` puts one. -/
def worker (net : Probe) (p : Pair) (timedoutIP : List GoString) :
    Attempt × List GoString :=
  if p.IP ∈ timedoutIP then
    ({ dialed := false, ok := false, sent := [] }, timedoutIP)
  else
    match Hello net p timedoutIP with
    | ((ok, err), timedoutIP) =>
      if !ok then
        if IsTimeout err then
          ({ dialed := true, ok := ok, sent := [SprintPair p ++ " i/o timeout".toList] },
            timedoutIP)
        else
          ({ dialed := true, ok := ok, sent := [SprintPair p ++ ' ' :: SprintError err] },
            timedoutIP)
      else
        ({ dialed := true, ok := ok, sent := [] }, timedoutIP)

/-- `ConsumePairs` of `hostschecker.go` with `DialThreadsLimit = 1`: the
one slot of `th_lim` is taken before a worker starts and given back when it
returns, so the workers run one after the other in the order of `ch`.
`net i p` is the network's answer should the `i`-th pair received, `p`, be
probed.  The result is the list of attempts, in the order of `ch`, and the
final `timedoutIP`. -/
def ConsumePairs (net : Nat → Pair → Probe) :
    Nat → List Pair → List GoString → List Attempt × List GoString
  | _, [], timedoutIP => ([], timedoutIP)
  | i, p :: ch, timedoutIP =>
    match worker (net i p) p timedoutIP with
    | (a, timedoutIP) =>
      match ConsumePairs net (i + 1) ch timedoutIP with
      | (as, timedoutIP) => (a :: as, timedoutIP)

/-- The attempts of a run of `ConsumePairs` that starts with the empty
`timedoutIP` of program start. -/
def attempts (net : Nat → Pair → Probe) (ch : List Pair) : List Attempt :=
  (ConsumePairs net 0 ch []).1

/-- The entries put on the `result` channel by that run. -/
def results (net : Nat → Pair → Probe) (ch : List Pair) : List GoString :=
  (attempts net ch).flatMap (fun a => a.sent)

/-- The content of `timedoutIP` in the run of `ConsumePairs` with one slot,
once the workers of the first `k` pairs of `ch` have returned. -/
def knownTimeouts (net : Nat → Pair → Probe) (ch : List Pair) (k : Nat) : List GoString :=
  (ConsumePairs net 0 (ch.take k) []).2

/-! ## The byte-order mark -/

/-- An open regular file: its bytes and the read offset. -/
structure File where
  content : List Nat
  offset : Nat
deriving DecidableEq, Repr

/-- The errors of reading a file whose content is fixed: end of file. -/
inductive IOError where
  | EOF
deriving DecidableEq, Repr

/-- Go `os.Open`, on a file with the given content: the offset is 0. -/
def Open (content : List Nat) : File :=
  { content := content, offset := 0 }

/-- Go `(*os.File).Read` on a regular file: reads up to `len(b)` bytes at the
offset into `b` and advances the offset; at end of file it returns `0, io.EOF`.
Returns the buffer, `n` and `err`, and the file. -/
def File.Read (f : File) (b : List Nat) : (List Nat × Nat × Option IOError) × File :=
  let data := (f.content.drop f.offset).take b.length
  if b.length = 0 then
    ((b, 0, none), f)
  else if data.length = 0 then
    ((b, 0, some IOError.EOF), f)
  else
    ((data ++ b.drop data.length, data.length, none),
      { f with offset := f.offset + data.length })

/-- Go `f.Seek(0, io.SeekStart)`. -/
def File.SeekStart (f : File) : File :=
  { f with offset := 0 }

/-- `TrimU8Bom` of `hostschecker.go`: the returned error and the file. -/
def TrimU8Bom (f : File) : Option IOError × File :=
  match f.Read (List.replicate 3 0) with
  | ((b, n, err), f) =>
    match err with
    | some e => (some e, f)
    | none =>
      if !(n = 3 && b.getD 0 0 = 0xEF && b.getD 1 0 = 0xBB && b.getD 2 0 = 0xBF) then
        (none, f.SeekStart)
      else
        (none, f)

/-- The bytes a scanner created on the file reads: those from the offset on. -/
def File.unread (f : File) : List Nat :=
  f.content.drop f.offset

/-! ## Scenarios -/

/-- The pairs of end-to-end scenario 3: two lines sharing the IP
`10.255.255.1`, with different hostnames. -/
def scenario3 : List Pair :=
  [⟨"10.255.255.1".toList, "a.example".toList⟩, ⟨"10.255.255.1".toList, "b.example".toList⟩]

/-- A network on which every connection attempt times out. -/
def dialTimesOut : Nat → Pair → Probe :=
  fun _ _ =>
    { dial := some ⟨true, "dial tcp 10.255.255.1:443: i/o timeout".toList⟩, handshake := none }

/-- A network on which every connection opens and every TLS handshake runs
into the deadline of its context: `HandshakeContext` returns
`context.DeadlineExceeded`, of which `os.IsTimeout` holds. -/
def handshakeTimesOut : Nat → Pair → Probe :=
  fun _ _ => { dial := none, handshake := some ⟨true, "context deadline exceeded".toList⟩ }

/-! ## The worker pool as a transition system

`ConsumePairs` with any `DialThreadsLimit`: the goroutine that runs the loop
`for p := range ch`, the worker goroutines it starts, and the reader of
`result`.  A state records where each goroutine stands; one step is one
statement of one goroutine, and a step that would block (a send on a full
channel, a receive on an empty one, `wg.Wait()` with a positive counter) is not
enabled.  A schedule is the list of steps an execution takes, so that the
schedules are the interleavings.  Reads and writes of the map `timedoutIP` are
steps like the others. -/

/-- Where the goroutine of the loop `for p := range ch` stands. -/
inductive LoopPC where
  /-- At `for p := range ch`, about to receive. -/
  | recv
  /-- At `th_lim <- struct{}{}`, holding the pair received. -/
  | acquire (p : Pair)
  /-- At `wg.Add(1)`; the slot is taken. -/
  | add (p : Pair)
  /-- At `go func(p Pair) {...}(p)`. -/
  | spawn (p : Pair)
  /-- At `wg.Wait()`; `ch` is closed and drained. -/
  | wait
  /-- At `close(result)`. -/
  | close
  /-- Returned. -/
  | done
deriving DecidableEq, Repr

/-- Where a worker goroutine stands. -/
inductive WorkerPC where
  /-- At `if _, ok := timedoutIP[p.IP]; ok`. -/
  | check
  /-- At `Hello(p)`. -/
  | hello
  /-- At `result <- ...`, with the entry to send. -/
  | send (entry : GoString)
  /-- The body has returned; the deferred function is at `<-th_lim`. -/
  | release
  /-- The deferred function is at `wg.Done()`. -/
  | wgDone
  /-- The goroutine has ended. -/
  | exited
deriving DecidableEq, Repr

/-- A worker goroutine: its pair, where it stands, and how many times it has
received from `th_lim` (released a slot). -/
structure Worker where
  p : Pair
  pc : WorkerPC
  released : Nat
deriving DecidableEq, Repr

/-- A state of the pool. -/
structure Pool where
  /-- The pairs still to be received from `ch`, which is closed after them. -/
  ch : List Pair
  loop : LoopPC
  /-- The number of elements buffered in `th_lim`: the slots taken. -/
  th_lim : Nat
  /-- The counter of `wg`. -/
  wg : Nat
  /-- The worker goroutines started so far, oldest first. -/
  workers : List Worker
  timedoutIP : List GoString
  /-- The entries buffered in `result`. -/
  result : List GoString
  /-- Whether `result` has been closed. -/
  closed : Bool
deriving DecidableEq, Repr

/-- `ChannelCap` of `hostschecker.go`. -/
def ChannelCap : Nat := 3

/-- The state in which `ConsumePairs` starts its goroutine, with `pairs` the
content to come on `ch`. -/
def Pool.start (pairs : List Pair) : Pool :=
  { ch := pairs, loop := LoopPC.recv, th_lim := 0, wg := 0, workers := [],
    timedoutIP := [], result := [], closed := false }

/-- One step of a schedule. -/
inductive Action where
  /-- The loop goroutine runs its next statement. -/
  | loop
  /-- The `k`-th worker started runs its next statement; `net` is the answer of
  the network if that statement is `Hello(p)`. -/
  | worker (k : Nat) (net : Probe)
  /-- `CheckHosts` receives one entry from `result`. -/
  | consume
deriving DecidableEq, Repr

/-- The next statement of the loop goroutine, with `T = DialThreadsLimit` the
capacity of `th_lim`. -/
def stepLoop (T : Nat) (s : Pool) : Option Pool :=
  match s.loop with
  | LoopPC.recv =>
    match s.ch with
    | p :: ch => some { s with ch := ch, loop := LoopPC.acquire p }
    | [] => some { s with loop := LoopPC.wait }
  | LoopPC.acquire p =>
    if s.th_lim < T then some { s with th_lim := s.th_lim + 1, loop := LoopPC.add p }
    else none
  | LoopPC.add p => some { s with wg := s.wg + 1, loop := LoopPC.spawn p }
  | LoopPC.spawn p =>
    some { s with workers := s.workers ++ [{ p := p, pc := WorkerPC.check, released := 0 }],
                  loop := LoopPC.recv }
  | LoopPC.wait => if s.wg = 0 then some { s with loop := LoopPC.close } else none
  | LoopPC.close => some { s with closed := true, loop := LoopPC.done }
  | LoopPC.done => none

/-- The next statement of the `k`-th worker goroutine. -/
def stepWorker (s : Pool) (k : Nat) (net : Probe) : Option Pool :=
  match s.workers[k]? with
  | none => none
  | some w =>
    match w.pc with
    | WorkerPC.check =>
      if w.p.IP ∈ s.timedoutIP then
        some { s with workers := s.workers.set k { w with pc := WorkerPC.release } }
      else
        some { s with workers := s.workers.set k { w with pc := WorkerPC.hello } }
    | WorkerPC.hello =>
      match Hello net w.p s.timedoutIP with
      | ((ok, err), timedoutIP) =>
        if !ok then
          if IsTimeout err then
            some { s with
              timedoutIP := timedoutIP,
              workers := s.workers.set k
                { w with pc := WorkerPC.send (SprintPair w.p ++ " i/o timeout".toList) } }
          else
            some { s with
              timedoutIP := timedoutIP,
              workers := s.workers.set k
                { w with pc := WorkerPC.send (SprintPair w.p ++ ' ' :: SprintError err) } }
        else
          some { s with
            timedoutIP := timedoutIP,
            workers := s.workers.set k { w with pc := WorkerPC.release } }
    | WorkerPC.send entry =>
      if s.result.length < ChannelCap then
        some { s with
          result := s.result ++ [entry],
          workers := s.workers.set k { w with pc := WorkerPC.release } }
      else none
    | WorkerPC.release =>
      if 0 < s.th_lim then
        some { s with
          th_lim := s.th_lim - 1,
          workers := s.workers.set k
            { w with pc := WorkerPC.wgDone, released := w.released + 1 } }
      else none
    | WorkerPC.wgDone =>
      if 0 < s.wg then
        some { s with
          wg := s.wg - 1,
          workers := s.workers.set k { w with pc := WorkerPC.exited } }
      else none
    | WorkerPC.exited => none

/-- One step of the pool; `none` when the step is not enabled. -/
def step (T : Nat) (s : Pool) : Action → Option Pool
  | Action.loop => stepLoop T s
  | Action.worker k net => stepWorker s k net
  | Action.consume =>
    match s.result with
    | _ :: result => some { s with result := result }
    | [] => none

/-- The state a schedule leads to; `none` when one of its steps is not
enabled. -/
def run (T : Nat) : Pool → List Action → Option Pool
  | s, [] => some s
  | s, a :: schedule =>
    match step T s a with
    | none => none
    | some s => run T s schedule

/-- A worker that has acquired a slot of `th_lim` and not yet released it. -/
def Worker.inFlight (w : Worker) : Bool :=
  w.released = 0

/-- The schedule of scenario 3 with one slot: the loop starts a worker for the
first pair, which probes, fails, sends its entry and ends; then one for the
second pair, which finds the IP in `timedoutIP` and ends; then the loop waits
and closes `result`. -/
def schedule3 : List Action :=
  [Action.loop, Action.loop, Action.loop, Action.loop,
   Action.worker 0 (dialTimesOut 0 ⟨[], []⟩), Action.worker 0 (dialTimesOut 0 ⟨[], []⟩),
   Action.worker 0 (dialTimesOut 0 ⟨[], []⟩), Action.worker 0 (dialTimesOut 0 ⟨[], []⟩),
   Action.loop, Action.worker 0 (dialTimesOut 0 ⟨[], []⟩),
   Action.loop, Action.loop, Action.loop,
   Action.worker 1 (dialTimesOut 0 ⟨[], []⟩), Action.worker 1 (dialTimesOut 0 ⟨[], []⟩),
   Action.worker 1 (dialTimesOut 0 ⟨[], []⟩),
   Action.loop, Action.loop, Action.loop]

/-- A schedule of scenario 3 with two slots: the loop starts a worker for each
pair before either has probed; both read `timedoutIP` while it is empty, both
probe, and both send an entry. -/
def schedule3TwoSlots : List Action :=
  [Action.loop, Action.loop, Action.loop, Action.loop,
   Action.loop, Action.loop, Action.loop, Action.loop,
   Action.worker 0 (dialTimesOut 0 ⟨[], []⟩), Action.worker 1 (dialTimesOut 0 ⟨[], []⟩),
   Action.worker 0 (dialTimesOut 0 ⟨[], []⟩), Action.worker 1 (dialTimesOut 0 ⟨[], []⟩),
   Action.worker 0 (dialTimesOut 0 ⟨[], []⟩), Action.worker 1 (dialTimesOut 0 ⟨[], []⟩),
   Action.worker 0 (dialTimesOut 0 ⟨[], []⟩), Action.worker 1 (dialTimesOut 0 ⟨[], []⟩),
   Action.worker 0 (dialTimesOut 0 ⟨[], []⟩), Action.worker 1 (dialTimesOut 0 ⟨[], []⟩),
   Action.loop, Action.loop, Action.loop]

/-- A worker that stands before the end of `<-th_lim` in its deferred
function. -/
def Worker.holdsSlot (w : Worker) : Bool :=
  match w.pc with
  | WorkerPC.check => true
  | WorkerPC.hello => true
  | WorkerPC.send _ => true
  | WorkerPC.release => true
  | WorkerPC.wgDone => false
  | WorkerPC.exited => false

/-- The slots the loop goroutine has taken for a worker it has not started
yet. -/
def LoopPC.holdsSlot : LoopPC → Nat
  | LoopPC.add _ => 1
  | LoopPC.spawn _ => 1
  | _ => 0

/-- The invariant of the pool: `th_lim` holds at most `T` elements, one for
each worker that has not released and one for a worker about to be started;
a worker has released once if it is past `<-th_lim` and never before. -/
def Pool.Inv (T : Nat) (s : Pool) : Prop :=
  s.th_lim ≤ T
    ∧ s.workers.countP Worker.holdsSlot + s.loop.holdsSlot = s.th_lim
    ∧ ∀ w ∈ s.workers, w.released = if w.holdsSlot then 0 else 1

theorem isSpace_hash : IsSpace '#' = false := by decide

theorem fieldsLoop_ne_nil (s cur : GoString) (h : cur ≠ []) : fieldsLoop s cur ≠ [] := by
  induction s generalizing cur with
  | nil => simp [fieldsLoop, h]
  | cons c cs ih =>
    unfold fieldsLoop
    by_cases hc : IsSpace c = true
    · simp [hc, h]
    · simp only [hc]
      exact ih _ (by simp)

theorem fieldsLoop_eq_split (s cur : GoString) :
    fieldsLoop s cur
      = ((s.splitOnP IsSpace).modifyHead (fun x => cur ++ x)).filter (fun t => !t.isEmpty) := by
  induction s generalizing cur with
  | nil =>
    by_cases h : cur = []
    · simp [fieldsLoop, h, List.modifyHead]
    · cases cur with
      | nil => exact absurd rfl h
      | cons a l => simp [fieldsLoop, List.modifyHead]
  | cons c cs ih =>
    unfold fieldsLoop
    rw [List.splitOnP_cons]
    by_cases hc : IsSpace c = true
    · simp only [hc, if_true, List.modifyHead, List.append_nil]
      have h0 := ih []
      simp only [List.nil_append] at h0
      have hid : List.modifyHead (fun x : GoString => x) (List.splitOnP IsSpace cs)
          = List.splitOnP IsSpace cs := by
        cases List.splitOnP IsSpace cs <;> rfl
      rw [hid] at h0
      cases cur with
      | nil => simp [h0]
      | cons a l => simp [h0]
    · simp only [hc]
      have h1 := ih (cur ++ [c])
      cases hsp : List.splitOnP IsSpace cs with
      | nil =>
        rw [hsp] at h1
        simpa [List.modifyHead] using h1
      | cons x xs =>
        rw [hsp] at h1
        simpa [List.modifyHead] using h1

theorem Fields_eq_tokens (s : GoString) : Fields s = tokens s := by
  unfold Fields tokens
  rw [fieldsLoop_eq_split]
  congr 1
  cases List.splitOnP IsSpace s <;> simp [List.modifyHead]


theorem fieldsLoop_spaces (w cur : GoString) (hw : ∀ c ∈ w, IsSpace c = true) :
    fieldsLoop w cur = fieldsLoop [] cur := by
  induction w generalizing cur with
  | nil => rfl
  | cons c cs ih =>
    have hc : IsSpace c = true := hw c (List.mem_cons_self _ _)
    have hcs : ∀ x ∈ cs, IsSpace x = true := fun x hx => hw x (List.mem_cons_of_mem _ hx)
    unfold fieldsLoop
    simp only [hc, if_true]
    rw [ih [] hcs]
    by_cases h : cur = [] <;> simp [fieldsLoop, h]

theorem fieldsLoop_append_spaces (s w cur : GoString) (hw : ∀ c ∈ w, IsSpace c = true) :
    fieldsLoop (s ++ w) cur = fieldsLoop s cur := by
  induction s generalizing cur with
  | nil => simpa using fieldsLoop_spaces w cur hw
  | cons c cs ih =>
    simp only [List.cons_append]
    unfold fieldsLoop
    simp only [ih]

theorem Fields_dropWhile (s : GoString) : Fields (s.dropWhile IsSpace) = Fields s := by
  induction s with
  | nil => rfl
  | cons c cs ih =>
    by_cases hc : IsSpace c = true
    · rw [List.dropWhile_cons_of_pos hc, ih]
      simp [Fields, fieldsLoop, hc]
    · rw [List.dropWhile_cons_of_neg hc]

theorem beforeHash_dropWhile (s : GoString) :
    beforeHash (s.dropWhile IsSpace) = (beforeHash s).dropWhile IsSpace := by
  induction s with
  | nil => rfl
  | cons c cs ih =>
    by_cases hc : IsSpace c = true
    · have hne : (c != '#') = true := by
        rw [bne_iff_ne]
        intro h
        rw [h, isSpace_hash] at hc
        exact absurd hc (by decide)
      rw [List.dropWhile_cons_of_pos hc, ih]
      unfold beforeHash
      simp only [List.takeWhile_cons, hne, if_true]
      rw [List.dropWhile_cons_of_pos hc]
    · rw [List.dropWhile_cons_of_neg hc]
      unfold beforeHash
      by_cases hh : (c != '#') = true
      · simp only [List.takeWhile_cons, hh, if_true]
        rw [List.dropWhile_cons_of_neg hc]
      · simp only [List.takeWhile_cons, hh]
        rfl

theorem trimRight_decomp (s : GoString) :
    ∃ w, (∀ c ∈ w, IsSpace c = true) ∧ s = TrimRightFunc s IsSpace ++ w := by
  refine ⟨(s.reverse.takeWhile IsSpace).reverse, ?_, ?_⟩
  · intro c hc
    rw [List.mem_reverse] at hc
    exact List.mem_takeWhile_imp hc
  · unfold TrimRightFunc
    rw [← List.reverse_append, List.takeWhile_append_dropWhile, List.reverse_reverse]

theorem beforeHash_append_spaces (a w : GoString) (hw : ∀ c ∈ w, IsSpace c = true) :
    ∃ v, (∀ c ∈ v, IsSpace c = true) ∧ beforeHash (a ++ w) = beforeHash a ++ v := by
  have hwall : w.takeWhile (fun c => c != '#') = w := by
    rw [List.takeWhile_eq_self_iff]
    intro c hc
    rw [bne_iff_ne]
    intro h
    have := hw c hc
    rw [h, isSpace_hash] at this
    exact absurd this (by decide)
  unfold beforeHash
  rw [List.takeWhile_append]
  split
  · exact ⟨w, hw, by rw [hwall]; congr 1; rename_i h; exact (List.takeWhile_eq_self_iff.mpr (by
      intro c hc
      have := List.takeWhile_eq_self_iff.mp (List.IsPrefix.eq_of_length (List.takeWhile_prefix _) h)
      exact this c hc)).symm⟩
  · exact ⟨[], by simp, by simp⟩

theorem Fields_beforeHash_TrimSpace (line : GoString) :
    Fields (beforeHash (TrimSpace line)) = Fields (beforeHash line) := by
  obtain ⟨w, hw, hdec⟩ := trimRight_decomp (TrimLeftFunc line IsSpace)
  obtain ⟨v, hv, hbh⟩ := beforeHash_append_spaces (TrimSpace line) w hw
  have h1 : Fields (beforeHash (TrimSpace line)) = Fields (beforeHash (TrimSpace line) ++ v) := by
    unfold Fields
    rw [fieldsLoop_append_spaces _ _ _ hv]
  rw [h1, ← hbh]
  unfold TrimSpace
  rw [← hdec]
  unfold TrimLeftFunc
  rw [beforeHash_dropWhile, Fields_dropWhile]


theorem indexFrom_eq (s : GoString) (i : Nat) :
    indexFrom '#' s i
      = if (beforeHash s).length = s.length then none else some (i + (beforeHash s).length) := by
  induction s generalizing i with
  | nil => rfl
  | cons c cs ih =>
    unfold indexFrom beforeHash
    by_cases hc : c = '#'
    · subst hc
      simp
    · have hne : (c != '#') = true := by rw [bne_iff_ne]; exact hc
      simp only [hc, if_false, List.takeWhile_cons, hne, if_true, List.length_cons]
      rw [ih]
      unfold beforeHash
      by_cases hl : (List.takeWhile (fun c => c != '#') cs).length = cs.length
      · simp [hl]
      · simp [hl]; omega

theorem cut_eq_beforeHash (s : GoString) :
    (if IndexRune s '#' ≠ -1 then s.take (IndexRune s '#').toNat else s) = beforeHash s := by
  have hpre : beforeHash s <+: s := List.takeWhile_prefix _
  unfold IndexRune
  rw [indexFrom_eq]
  by_cases hl : (beforeHash s).length = s.length
  · simp only [hl, if_true]
    simp
    exact (List.IsPrefix.eq_of_length hpre hl).symm
  · simp only [hl, if_false]
    have : ((0 + (beforeHash s).length : Nat) : Int) ≠ -1 := by omega
    simp only [this, ne_eq, not_false_eq_true, if_true]
    simp
    exact (List.prefix_iff_eq_take.mp hpre).symm

theorem ParseLine_skip (line : GoString)
    (h : TrimSpace line = [] ∨ (TrimSpace line).head? = some '#') :
    ParseLine line = some ([], []) := by
  unfold ParseLine
  have h0 : (TrimSpace line).length = 0 ∨ (TrimSpace line).head? = some '#' := by
    rcases h with h | h
    · left; rw [h]; rfl
    · right; exact h
  simp only [h0, if_true]

theorem ParseLine_data (line : GoString)
    (h : ¬ (TrimSpace line = [] ∨ (TrimSpace line).head? = some '#')) :
    ParseLine line
      = match (Fields (beforeHash (TrimSpace line)))[0]? with
        | none => none
        | some ip => some (ip, (Fields (beforeHash (TrimSpace line))).drop 1) := by
  unfold ParseLine
  have h0 : ¬ ((TrimSpace line).length = 0 ∨ (TrimSpace line).head? = some '#') := by
    intro h1
    apply h
    rcases h1 with h1 | h1
    · left; exact List.length_eq_zero.mp h1
    · right; exact h1
  simp only [h0, if_false]
  rw [cut_eq_beforeHash]

theorem TrimSpace_head_not_space (line : GoString) (c : Char) (cs : GoString)
    (h : TrimSpace line = c :: cs) : IsSpace c = false := by
  obtain ⟨w, _, hdec⟩ := trimRight_decomp (TrimLeftFunc line IsSpace)
  have h2 : List.dropWhile IsSpace line = c :: (cs ++ w) := by
    have : TrimRightFunc (TrimLeftFunc line IsSpace) IsSpace = c :: cs := h
    rw [this] at hdec
    exact hdec
  have hne : List.dropWhile IsSpace line ≠ [] := by rw [h2]; simp
  have := List.head_dropWhile_not IsSpace line hne
  simpa [h2] using this

theorem Fields_data_cons (line : GoString)
    (h : ¬ (TrimSpace line = [] ∨ (TrimSpace line).head? = some '#')) :
    ∃ ip hostnames, Fields (beforeHash (TrimSpace line)) = ip :: hostnames := by
  cases ht : TrimSpace line with
  | nil => exact absurd (Or.inl ht) h
  | cons c cs =>
    have hsp : IsSpace c = false := TrimSpace_head_not_space line c cs ht
    have hc : c ≠ '#' := by
      intro hc
      apply h
      right
      rw [ht, hc]
      rfl
    have hne : (c != '#') = true := by rw [bne_iff_ne]; exact hc
    have hf : Fields (beforeHash (c :: cs)) ≠ [] := by
      unfold Fields beforeHash
      simp only [List.takeWhile_cons, hne, if_true]
      unfold fieldsLoop
      simp only [hsp]
      exact fieldsLoop_ne_nil _ _ (by simp)
    cases hF : Fields (beforeHash (c :: cs)) with
    | nil => exact absurd hF hf
    | cons ip hostnames => exact ⟨ip, hostnames, rfl⟩

theorem tokens_ne_nil (s t : GoString) (h : t ∈ tokens s) : t ≠ [] := by
  unfold tokens at h
  rw [List.mem_filter] at h
  intro ht
  rw [ht] at h
  simp at h

theorem ParseLine_result (line : GoString) :
    ∃ ip hostnames, ParseLine line = some (ip, hostnames)
      ∧ (ip = [] ↔ (TrimSpace line = [] ∨ (TrimSpace line).head? = some '#')) := by
  by_cases h : TrimSpace line = [] ∨ (TrimSpace line).head? = some '#'
  · exact ⟨[], [], ParseLine_skip line h, by simp [h]⟩
  · obtain ⟨ip, hostnames, hF⟩ := Fields_data_cons line h
    refine ⟨ip, hostnames, ?_, ?_⟩
    · rw [ParseLine_data line h, hF]
      simp
    · have hip : ip ≠ [] := by
        apply tokens_ne_nil (beforeHash (TrimSpace line)) ip
        rw [← Fields_eq_tokens, hF]
        exact List.mem_cons_self _ _
      constructor
      · intro h1; exact absurd h1 hip
      · intro h1; exact absurd h1 h

/-- C1: for every line whose white-space-trimmed form is empty or begins with
`#`, `ParseLine` returns the empty string as IP and no hostnames. -/
theorem ParseLine_comment_or_blank (line : GoString)
    (h : TrimSpace line = [] ∨ (TrimSpace line).head? = some '#') :
    ParseLine line = some ([], []) :=
  ParseLine_skip line h

/-- A comment line with leading blanks, and a blank line. -/
theorem ParseLine_comment_or_blank_witness :
    (TrimSpace "  # 1.2.3.4 a.com".toList = []
        ∨ (TrimSpace "  # 1.2.3.4 a.com".toList).head? = some '#')
      ∧ ParseLine "  # 1.2.3.4 a.com".toList = some ([], [])
      ∧ ParseLine " \t ".toList = some ([], []) :=
  ⟨by decide, ParseLine_comment_or_blank _ (by decide), ParseLine_comment_or_blank _ (by decide)⟩

/-- C2: for every line whose trimmed form is non-empty and does not begin with
`#`, `ParseLine` returns normally, and splitting the text of the line before
its first `#` (the whole line when it has none) on runs of white space gives
the returned IP as first token and the returned hostnames as the remaining
tokens, in order. -/
theorem ParseLine_tokenizes_before_hash (line : GoString)
    (hne : TrimSpace line ≠ []) (hh : (TrimSpace line).head? ≠ some '#') :
    ∃ ip hostnames, ParseLine line = some (ip, hostnames)
      ∧ tokens (beforeHash line) = ip :: hostnames := by
  have h : ¬ (TrimSpace line = [] ∨ (TrimSpace line).head? = some '#') := by
    rintro (h | h)
    · exact hne h
    · exact hh h
  obtain ⟨ip, hostnames, hF⟩ := Fields_data_cons line h
  refine ⟨ip, hostnames, ?_, ?_⟩
  · rw [ParseLine_data line h, hF]
    simp
  · rw [← Fields_eq_tokens, ← Fields_beforeHash_TrimSpace, hF]

/-- The line `1.2.3.4 a.com # note` yields IP `1.2.3.4` and hostnames
`[a.com]`. -/
theorem ParseLine_tokenizes_before_hash_witness :
    ParseLine "1.2.3.4 a.com # note".toList = some ("1.2.3.4".toList, ["a.com".toList])
      ∧ tokens (beforeHash "1.2.3.4 a.com # note".toList) = ["1.2.3.4".toList, "a.com".toList]
      ∧ ∃ ip hostnames, ParseLine "1.2.3.4 a.com # note".toList = some (ip, hostnames)
          ∧ tokens (beforeHash "1.2.3.4 a.com # note".toList) = ip :: hostnames :=
  ⟨by decide, by decide,
    ParseLine_tokenizes_before_hash "1.2.3.4 a.com # note".toList (by decide) (by decide)⟩

/-- C10: `ParseLine` is total: on every line it returns a result (the index
`data[0]` and the slice `data[1:]` are in range, no panic), and the IP it
returns is the empty string if and only if the trimmed line is empty or begins
with `#`, the lines that `GenPairs` skips by its test `ip == ""`. -/
theorem ParseLine_total (line : GoString) :
    ∃ ip hostnames, ParseLine line = some (ip, hostnames)
      ∧ (ip = [] ↔ (TrimSpace line = [] ∨ (TrimSpace line).head? = some '#')) :=
  ParseLine_result line

/-! ## The pair generator -/

theorem GenPairs_total (ok : GoString → Bool) (lines : List GoString) :
    ∃ sent, GenPairs ok lines = some sent := by
  induction lines with
  | nil => exact ⟨[], rfl⟩
  | cons line rest ih =>
    obtain ⟨sent, hs⟩ := ih
    obtain ⟨ip, hostnames, hp, _⟩ := ParseLine_result line
    unfold GenPairs
    rw [hp]
    simp only [hs]
    by_cases h1 : ip = []
    · simp [h1]
    · by_cases h2 : ok ip = true
      · simp [h1, h2]
      · simp [h1, h2]

theorem GenPairs_cons (ok : GoString → Bool) (line : GoString) (rest : List GoString)
    (ip : GoString) (hostnames : List GoString) (sent : List Pair)
    (hp : ParseLine line = some (ip, hostnames)) (hs : GenPairs ok rest = some sent) :
    GenPairs ok (line :: rest)
      = some ((if ip = [] then [] else if ok ip = true then
          hostnames.map (fun hostname => Pair.mk ip hostname) else []) ++ sent) := by
  unfold GenPairs
  rw [hp]
  simp only [hs]
  by_cases h1 : ip = []
  · simp [h1]
  · by_cases h2 : ok ip = true
    · simp [h1, h2]
    · simp [h1, h2]

theorem GenPairs_append (ok : GoString → Bool) (before after : List GoString)
    (sentBefore sentAfter : List Pair)
    (hb : GenPairs ok before = some sentBefore) (ha : GenPairs ok after = some sentAfter) :
    GenPairs ok (before ++ after) = some (sentBefore ++ sentAfter) := by
  induction before generalizing sentBefore with
  | nil =>
    simp only [GenPairs, Option.some.injEq] at hb
    subst hb
    simpa using ha
  | cons line rest ih =>
    obtain ⟨sentRest, hr⟩ := GenPairs_total ok rest
    obtain ⟨ip, hostnames, hp, _⟩ := ParseLine_result line
    rw [GenPairs_cons ok line rest ip hostnames sentRest hp hr] at hb
    simp only [Option.some.injEq] at hb
    subst hb
    rw [List.cons_append,
      GenPairs_cons ok line (rest ++ after) ip hostnames (sentRest ++ sentAfter) hp
        (ih sentRest hr)]
    simp

theorem ParseLine_of_tokens (line ip : GoString) (hostnames : List GoString)
    (htok : tokens (beforeHash line) = ip :: hostnames) :
    ParseLine line = some (ip, hostnames) ∧ ip ≠ [] := by
  have hF : Fields (beforeHash (TrimSpace line)) = ip :: hostnames := by
    rw [Fields_beforeHash_TrimSpace, Fields_eq_tokens, htok]
  have h : ¬ (TrimSpace line = [] ∨ (TrimSpace line).head? = some '#') := by
    rintro (h | h)
    · rw [h] at hF
      exact absurd hF (by simp [Fields, beforeHash, fieldsLoop])
    · cases ht : TrimSpace line with
      | nil => rw [ht] at h; exact absurd h (by simp)
      | cons c cs =>
        rw [ht] at h hF
        simp only [List.head?_cons, Option.some.injEq] at h
        subst h
        exact absurd hF (by simp [Fields, beforeHash, fieldsLoop])
  constructor
  · rw [ParseLine_data line h, hF]
    simp
  · apply tokens_ne_nil (beforeHash line) ip
    rw [htok]
    exact List.mem_cons_self _ _

/-- C3: a line whose first token (of the text before the first `#`) is an IP
that `netip.ParseAddr` accepts, followed by the hostname tokens `hostnames`,
makes `GenPairs` send, between what it sends for the lines before and what it
sends for the lines after, exactly one pair per hostname token, in line order,
each with that IP: `hostnames.length` pairs in all. -/
theorem GenPairs_emits_one_pair_per_hostname (parseAddrOk : GoString → Bool)
    (before after : List GoString) (line ip : GoString) (hostnames : List GoString)
    (htok : tokens (beforeHash line) = ip :: hostnames)
    (hvalid : parseAddrOk ip = true) :
    ∃ sentBefore sentAfter emitted,
      GenPairs parseAddrOk before = some sentBefore
      ∧ GenPairs parseAddrOk after = some sentAfter
      ∧ GenPairs parseAddrOk (before ++ line :: after)
          = some (sentBefore ++ emitted ++ sentAfter)
      ∧ emitted = hostnames.map (fun hostname => Pair.mk ip hostname)
      ∧ emitted.length = hostnames.length
      ∧ ∀ p ∈ emitted, p.IP = ip := by
  obtain ⟨sentBefore, hb⟩ := GenPairs_total parseAddrOk before
  obtain ⟨sentAfter, ha⟩ := GenPairs_total parseAddrOk after
  obtain ⟨hp, hne⟩ := ParseLine_of_tokens line ip hostnames htok
  refine ⟨sentBefore, sentAfter, hostnames.map (fun hostname => Pair.mk ip hostname),
    hb, ha, ?_, rfl, by simp, ?_⟩
  · have hl := GenPairs_cons parseAddrOk line after ip hostnames sentAfter hp ha
    simp only [hne, if_false, hvalid, if_true] at hl
    rw [GenPairs_append parseAddrOk before (line :: after) sentBefore _ hb hl]
    simp
  · intro p hp
    rw [List.mem_map] at hp
    obtain ⟨h, _, rfl⟩ := hp
    rfl

/-- C4: a line whose first token is not accepted by `netip.ParseAddr` makes
`GenPairs` send nothing, whatever hostnames follow it: the run does not panic
and what is sent is what the lines before send followed by what the lines
after send. -/
theorem GenPairs_skips_invalid_ip (parseAddrOk : GoString → Bool)
    (before after : List GoString) (line ip : GoString) (hostnames : List GoString)
    (htok : tokens (beforeHash line) = ip :: hostnames)
    (hinvalid : parseAddrOk ip = false) :
    ∃ sentBefore sentAfter,
      GenPairs parseAddrOk before = some sentBefore
      ∧ GenPairs parseAddrOk after = some sentAfter
      ∧ GenPairs parseAddrOk (before ++ line :: after) = some (sentBefore ++ sentAfter) := by
  obtain ⟨sentBefore, hb⟩ := GenPairs_total parseAddrOk before
  obtain ⟨sentAfter, ha⟩ := GenPairs_total parseAddrOk after
  obtain ⟨hp, hne⟩ := ParseLine_of_tokens line ip hostnames htok
  refine ⟨sentBefore, sentAfter, hb, ha, ?_⟩
  have hl := GenPairs_cons parseAddrOk line after ip hostnames sentAfter hp ha
  simp only [hne, if_false, hinvalid] at hl
  rw [GenPairs_append parseAddrOk before (line :: after) sentBefore _ hb hl]
  simp

/-- A hosts file of three lines, the second with a valid IP and two hostnames. -/
theorem GenPairs_emits_one_pair_per_hostname_witness :
    GenPairs (fun s => decide (s = "1.2.3.4".toList))
        ["# hosts".toList, "1.2.3.4 a.com b.com # note".toList, "5.6.7.8".toList]
        = some [⟨"1.2.3.4".toList, "a.com".toList⟩, ⟨"1.2.3.4".toList, "b.com".toList⟩]
      ∧ ∃ sentBefore sentAfter emitted,
          GenPairs (fun s => decide (s = "1.2.3.4".toList)) ["# hosts".toList] = some sentBefore
          ∧ GenPairs (fun s => decide (s = "1.2.3.4".toList)) ["5.6.7.8".toList]
              = some sentAfter
          ∧ GenPairs (fun s => decide (s = "1.2.3.4".toList))
              (["# hosts".toList] ++ "1.2.3.4 a.com b.com # note".toList :: ["5.6.7.8".toList])
              = some (sentBefore ++ emitted ++ sentAfter)
          ∧ emitted = ["a.com".toList, "b.com".toList].map
              (fun hostname => Pair.mk "1.2.3.4".toList hostname)
          ∧ emitted.length = ["a.com".toList, "b.com".toList].length
          ∧ ∀ p ∈ emitted, p.IP = "1.2.3.4".toList :=
  ⟨by decide,
    GenPairs_emits_one_pair_per_hostname (fun s => decide (s = "1.2.3.4".toList))
      ["# hosts".toList] ["5.6.7.8".toList] "1.2.3.4 a.com b.com # note".toList
      "1.2.3.4".toList ["a.com".toList, "b.com".toList] (by decide) (by decide)⟩

/-- A line whose first token is `999.1.1.1`, between two valid lines, under an
address check that rejects it. -/
theorem GenPairs_skips_invalid_ip_witness :
    GenPairs (fun s => decide (s = "1.2.3.4".toList))
        ["1.2.3.4 a.com".toList, "999.1.1.1 c.com d.com".toList, "1.2.3.4 b.com".toList]
        = some [⟨"1.2.3.4".toList, "a.com".toList⟩, ⟨"1.2.3.4".toList, "b.com".toList⟩]
      ∧ ∃ sentBefore sentAfter,
          GenPairs (fun s => decide (s = "1.2.3.4".toList)) ["1.2.3.4 a.com".toList]
              = some sentBefore
          ∧ GenPairs (fun s => decide (s = "1.2.3.4".toList)) ["1.2.3.4 b.com".toList]
              = some sentAfter
          ∧ GenPairs (fun s => decide (s = "1.2.3.4".toList))
              (["1.2.3.4 a.com".toList] ++ "999.1.1.1 c.com d.com".toList
                :: ["1.2.3.4 b.com".toList])
              = some (sentBefore ++ sentAfter) :=
  ⟨by decide,
    GenPairs_skips_invalid_ip (fun s => decide (s = "1.2.3.4".toList))
      ["1.2.3.4 a.com".toList] ["1.2.3.4 b.com".toList] "999.1.1.1 c.com d.com".toList
      "999.1.1.1".toList ["c.com".toList, "d.com".toList] (by decide) (by decide)⟩

/-! ## The probe workers, one at a time -/

theorem Hello_subset (net : Probe) (p : Pair) (t : List GoString) :
    t ⊆ (Hello net p t).2 := by
  unfold Hello
  cases net.dial with
  | some err =>
    by_cases h : IsTimeout (some err) = true
    · simp [h]
    · simp [h]
  | none =>
    cases net.handshake <;> simp

theorem worker_subset (net : Probe) (p : Pair) (t : List GoString) :
    t ⊆ (worker net p t).2 := by
  unfold worker
  by_cases h : p.IP ∈ t
  · simp [h]
  · simp only [h, if_false]
    have hs := Hello_subset net p t
    rcases hH : Hello net p t with ⟨⟨ok, err⟩, t1⟩
    rw [hH] at hs
    cases ok <;> cases hT : IsTimeout err <;> simpa [hT] using hs

theorem worker_skip (net : Probe) (p : Pair) (t : List GoString) (h : p.IP ∈ t) :
    worker net p t = ({ dialed := false, ok := false, sent := [] }, t) := by
  unfold worker
  simp [h]

theorem ConsumePairs_cons (net : Nat → Pair → Probe) (i : Nat) (p : Pair) (ch : List Pair)
    (t : List GoString) :
    ConsumePairs net i (p :: ch) t
      = ((worker (net i p) p t).1 :: (ConsumePairs net (i + 1) ch (worker (net i p) p t).2).1,
          (ConsumePairs net (i + 1) ch (worker (net i p) p t).2).2) := by
  rw [ConsumePairs]

theorem ConsumePairs_subset (net : Nat → Pair → Probe) (ch : List Pair) (i : Nat)
    (t : List GoString) : t ⊆ (ConsumePairs net i ch t).2 := by
  induction ch generalizing i t with
  | nil => simp [ConsumePairs]
  | cons p ch ih =>
    rw [ConsumePairs_cons]
    exact List.Subset.trans (worker_subset _ p t) (ih _ _)

theorem ConsumePairs_get (net : Nat → Pair → Probe) (ch : List Pair) (i : Nat)
    (t : List GoString) (k : Nat) (p : Pair) (hp : ch[k]? = some p) :
    (ConsumePairs net i ch t).1[k]?
      = some (worker (net (i + k) p) p (ConsumePairs net i (ch.take k) t).2).1 := by
  induction ch generalizing i t k with
  | nil => simp at hp
  | cons q ch ih =>
    rw [ConsumePairs_cons]
    cases k with
    | zero =>
      simp only [List.getElem?_cons_zero, Option.some.injEq] at hp
      subst hp
      simp [ConsumePairs]
    | succ k =>
      simp only [List.getElem?_cons_succ] at hp
      simp only [List.getElem?_cons_succ, List.take_succ_cons]
      rw [ih (i + 1) _ k hp, ConsumePairs_cons]
      have : i + 1 + k = i + (k + 1) := by omega
      rw [this]

theorem ConsumePairs_take_succ (net : Nat → Pair → Probe) (ch : List Pair) (i : Nat)
    (t : List GoString) (k : Nat) (p : Pair) (hp : ch[k]? = some p) :
    (ConsumePairs net i (ch.take (k + 1)) t).2
      = (worker (net (i + k) p) p (ConsumePairs net i (ch.take k) t).2).2 := by
  induction ch generalizing i t k with
  | nil => simp at hp
  | cons q ch ih =>
    cases k with
    | zero =>
      simp only [List.getElem?_cons_zero, Option.some.injEq] at hp
      subst hp
      simp [ConsumePairs]
    | succ k =>
      simp only [List.getElem?_cons_succ] at hp
      simp only [List.take_succ_cons]
      rw [ConsumePairs_cons, ConsumePairs_cons]
      simp only
      rw [ih (i + 1) _ k hp]
      have : i + 1 + k = i + (k + 1) := by omega
      rw [this]

theorem attempts_get (net : Nat → Pair → Probe) (ch : List Pair) (k : Nat) (p : Pair)
    (hp : ch[k]? = some p) :
    (attempts net ch)[k]? = some (worker (net k p) p (knownTimeouts net ch k)).1 := by
  unfold attempts knownTimeouts
  have := ConsumePairs_get net ch 0 [] k p hp
  simpa using this

theorem knownTimeouts_succ (net : Nat → Pair → Probe) (ch : List Pair) (k : Nat) (p : Pair)
    (hp : ch[k]? = some p) :
    knownTimeouts net ch (k + 1) = (worker (net k p) p (knownTimeouts net ch k)).2 := by
  unfold knownTimeouts
  have := ConsumePairs_take_succ net ch 0 [] k p hp
  simpa using this

theorem knownTimeouts_mono (net : Nat → Pair → Probe) (ch : List Pair) (k j : Nat)
    (hkj : k ≤ j) (hj : j ≤ ch.length) :
    knownTimeouts net ch k ⊆ knownTimeouts net ch j := by
  induction j with
  | zero =>
    have : k = 0 := by omega
    subst this
    exact List.Subset.refl _
  | succ j ih =>
    by_cases hk : k = j + 1
    · subst hk
      exact List.Subset.refl _
    · have hlt : j < ch.length := by omega
      have hp : ch[j]? = some ch[j] := List.getElem?_eq_getElem hlt
      rw [knownTimeouts_succ net ch j _ hp]
      exact List.Subset.trans (ih (by omega) (by omega)) (worker_subset _ _ _)

theorem worker_probe (net : Probe) (p : Pair) (t : List GoString) (h : p.IP ∉ t) :
    worker net p t
      = match net.dial with
        | some err =>
          if err.Timeout = true then
            ({ dialed := true, ok := false, sent := [SprintPair p ++ " i/o timeout".toList] },
              p.IP :: t)
          else
            ({ dialed := true, ok := false, sent := [SprintPair p ++ ' ' :: err.Error] }, t)
        | none =>
          match net.handshake with
          | some err =>
            if err.Timeout = true then
              ({ dialed := true, ok := false, sent := [SprintPair p ++ " i/o timeout".toList] },
                t)
            else
              ({ dialed := true, ok := false, sent := [SprintPair p ++ ' ' :: err.Error] }, t)
          | none => ({ dialed := true, ok := true, sent := [] }, t) := by
  unfold worker Hello
  simp only [h, if_false]
  cases hd : net.dial with
  | some err =>
    by_cases hT : err.Timeout = true
    · simp [IsTimeout, hT]
    · simp [IsTimeout, hT, SprintError]
  | none =>
    cases hh : net.handshake with
    | some err =>
      by_cases hT : err.Timeout = true
      · simp [IsTimeout, hT]
      · simp [IsTimeout, hT, SprintError]
    | none => simp

/-- C5, as stated, fails: on a network where the TLS handshake times out, the
probe of the first pair of scenario 3 reports `i/o timeout`, and the second
pair, which has the same IP, is dialed again and reports a second
`i/o timeout`. -/
theorem reported_handshake_timeout_is_redialed :
    (attempts handshakeTimesOut scenario3)[0]?
        = some ⟨true, false, ["\x7b10.255.255.1 a.example\x7d i/o timeout".toList]⟩
      ∧ (attempts handshakeTimesOut scenario3)[1]?
        = some ⟨true, false, ["\x7b10.255.255.1 b.example\x7d i/o timeout".toList]⟩ := by
  decide

/-- C5, amended: with the pairs processed one at a time, once a pair has been
dialed and its connection attempt has timed out, every later pair with the
same IP is skipped: it is not dialed and no entry is sent for it. -/
theorem ConsumePairs_skips_ip_after_dial_timeout (net : Nat → Pair → Probe) (ch : List Pair)
    (i j : Nat) (p q : Pair) (a : Attempt) (err : GoError)
    (hij : i < j) (hp : ch[i]? = some p) (hq : ch[j]? = some q) (hip : p.IP = q.IP)
    (ha : (attempts net ch)[i]? = some a) (hdialed : a.dialed = true)
    (hdial : (net i p).dial = some err) (htimeout : err.Timeout = true) :
    (attempts net ch)[j]? = some { dialed := false, ok := false, sent := [] } := by
  have hjlt : j < ch.length := by
    rcases Nat.lt_or_ge j ch.length with h | h
    · exact h
    · rw [List.getElem?_eq_none h] at hq
      exact absurd hq (by simp)
  have hprobed : p.IP ∉ knownTimeouts net ch i := by
    intro hmem
    rw [attempts_get net ch i p hp, worker_skip _ p _ hmem] at ha
    simp only [Option.some.injEq] at ha
    rw [← ha] at hdialed
    exact absurd hdialed (by simp)
  have hnext : p.IP ∈ knownTimeouts net ch (i + 1) := by
    rw [knownTimeouts_succ net ch i p hp, worker_probe _ p _ hprobed, hdial]
    simp [htimeout]
  have hmem : q.IP ∈ knownTimeouts net ch j := by
    rw [← hip]
    exact knownTimeouts_mono net ch (i + 1) j (by omega) (by omega) hnext
  rw [attempts_get net ch j q hq, worker_skip _ q _ hmem]

/-- Scenario 3 on a network where the connection to the shared IP times out:
one probe, one reported mismatch. -/
theorem ConsumePairs_skips_ip_after_dial_timeout_witness :
    (attempts dialTimesOut scenario3)[1]? = some { dialed := false, ok := false, sent := [] }
      ∧ ((attempts dialTimesOut scenario3).filter (fun a => a.dialed)).length = 1
      ∧ results dialTimesOut scenario3
          = ["\x7b10.255.255.1 a.example\x7d i/o timeout".toList] :=
  ⟨ConsumePairs_skips_ip_after_dial_timeout dialTimesOut scenario3 0 1
      ⟨"10.255.255.1".toList, "a.example".toList⟩ ⟨"10.255.255.1".toList, "b.example".toList⟩
      ⟨true, false, ["\x7b10.255.255.1 a.example\x7d i/o timeout".toList]⟩
      ⟨true, "dial tcp 10.255.255.1:443: i/o timeout".toList⟩
      (by decide) (by decide) (by decide) (by decide) (by decide) (by decide) (by decide)
      (by decide),
    by decide, by decide⟩

/-- Two pairs sharing an IP whose connection times out cause exactly one probe
and exactly one reported mismatch, whatever the hostnames and the network's
later answers. -/
theorem two_pairs_one_dial_timeout (net : Nat → Pair → Probe) (ip h1 h2 : GoString)
    (err : GoError) (hdial : (net 0 ⟨ip, h1⟩).dial = some err) (htimeout : err.Timeout = true) :
    attempts net [⟨ip, h1⟩, ⟨ip, h2⟩]
        = [⟨true, false, [SprintPair ⟨ip, h1⟩ ++ " i/o timeout".toList]⟩, ⟨false, false, []⟩]
      ∧ results net [⟨ip, h1⟩, ⟨ip, h2⟩] = [SprintPair ⟨ip, h1⟩ ++ " i/o timeout".toList] := by
  have h : attempts net [⟨ip, h1⟩, ⟨ip, h2⟩]
      = [⟨true, false, [SprintPair ⟨ip, h1⟩ ++ " i/o timeout".toList]⟩, ⟨false, false, []⟩] := by
    unfold attempts
    rw [ConsumePairs_cons, ConsumePairs_cons]
    rw [worker_probe _ _ _ (by simp), hdial]
    simp only [htimeout, if_true]
    rw [worker_skip _ _ _ (by simp)]
    simp [ConsumePairs]
  refine ⟨h, ?_⟩
  unfold results
  rw [h]
  simp

/-- C6, as stated, fails: on a network where connections time out and with one
slot, the second pair of scenario 3 is taken from the queue, does not result in
a successful handshake, and no entry is sent for it: both workers end and
`result` is closed after the single entry of the first pair. -/
theorem skipped_pair_sends_no_entry :
    (attempts dialTimesOut scenario3)[1]? = some { dialed := false, ok := false, sent := [] }
      ∧ scenario3[1]? = some ⟨"10.255.255.1".toList, "b.example".toList⟩
      ∧ (run 1 (Pool.start scenario3) schedule3).map
          (fun s => (s.workers.map (fun w => (w.p.Hostname, w.pc)), s.result, s.closed))
        = some ([("a.example".toList, WorkerPC.exited), ("b.example".toList, WorkerPC.exited)],
            ["\x7b10.255.255.1 a.example\x7d i/o timeout".toList], true) := by
  decide

/-- C6, amended: for every pair taken from the queue, whatever the content of
the Known-Timeout Set when its worker reads it and whatever the network
answers: if the set holds the pair's IP the pair is skipped, `Hello` is not
called and no entry is sent.  Otherwise `Hello` is called; it succeeds exactly
when the connection and the handshake both do; if it does not succeed exactly
one entry is sent, if it succeeds none is. -/
theorem worker_one_entry_per_failed_probe (net : Probe) (p : Pair)
    (timedoutIP timedoutAfter : List GoString) (a : Attempt)
    (h : worker net p timedoutIP = (a, timedoutAfter)) :
    (p.IP ∈ timedoutIP → a.dialed = false ∧ a.ok = false ∧ a.sent = [])
      ∧ (p.IP ∉ timedoutIP →
          a.dialed = true
          ∧ (a.ok = true ↔ net.dial = none ∧ net.handshake = none)
          ∧ (a.ok = true → a.sent = [])
          ∧ (a.ok = false → a.sent.length = 1)) := by
  refine ⟨?_, ?_⟩
  · intro hmem
    rw [worker_skip _ p _ hmem] at h
    simp only [Prod.mk.injEq] at h
    rw [← h.1]
    simp
  · intro hmem
    rw [worker_probe _ p _ hmem] at h
    cases hd : net.dial with
    | some err =>
      rw [hd] at h
      by_cases hT : err.Timeout = true
      · simp only [hT, if_true, Prod.mk.injEq] at h
        rw [← h.1]
        simp
      · simp only [hT, Bool.false_eq_true, if_false, Prod.mk.injEq] at h
        rw [← h.1]
        simp
    | none =>
      rw [hd] at h
      cases hh : net.handshake with
      | some err =>
        rw [hh] at h
        by_cases hT : err.Timeout = true
        · simp only [hT, if_true, Prod.mk.injEq] at h
          rw [← h.1]
          simp
        · simp only [hT, Bool.false_eq_true, if_false, Prod.mk.injEq] at h
          rw [← h.1]
          simp
      | none =>
        rw [hh] at h
        simp only [Prod.mk.injEq] at h
        rw [← h.1]
        simp

/-- A pair probed on a network where the connection times out: `Hello` is
called, fails, and one entry is sent; and the same pair once its IP is in the
Known-Timeout Set: it is skipped and nothing is sent. -/
theorem worker_one_entry_per_failed_probe_witness :
    worker (dialTimesOut 0 ⟨"10.255.255.1".toList, "a.example".toList⟩)
        ⟨"10.255.255.1".toList, "a.example".toList⟩ []
        = (⟨true, false, ["\x7b10.255.255.1 a.example\x7d i/o timeout".toList]⟩,
            ["10.255.255.1".toList])
      ∧ "10.255.255.1".toList ∉ ([] : List GoString)
      ∧ (Attempt.mk true false ["\x7b10.255.255.1 a.example\x7d i/o timeout".toList]).sent.length
          = 1
      ∧ worker (dialTimesOut 0 ⟨"10.255.255.1".toList, "a.example".toList⟩)
          ⟨"10.255.255.1".toList, "a.example".toList⟩ ["10.255.255.1".toList]
          = (⟨false, false, []⟩, ["10.255.255.1".toList])
      ∧ "10.255.255.1".toList ∈ ["10.255.255.1".toList]
      ∧ (Attempt.mk false false []).sent = [] :=
  ⟨by decide, by decide,
    ((worker_one_entry_per_failed_probe
      (dialTimesOut 0 ⟨"10.255.255.1".toList, "a.example".toList⟩)
      ⟨"10.255.255.1".toList, "a.example".toList⟩ [] ["10.255.255.1".toList]
      ⟨true, false, ["\x7b10.255.255.1 a.example\x7d i/o timeout".toList]⟩
      (by decide)).2 (by decide)).2.2.2 rfl,
    by decide, by decide,
    ((worker_one_entry_per_failed_probe
      (dialTimesOut 0 ⟨"10.255.255.1".toList, "a.example".toList⟩)
      ⟨"10.255.255.1".toList, "a.example".toList⟩ ["10.255.255.1".toList]
      ["10.255.255.1".toList] ⟨false, false, []⟩ (by decide)).1 (by decide)).2.2⟩

/-- C7, as stated, fails: when the TLS handshake fails by timeout the entry
ends in `i/o timeout`, which is not the text of the underlying error,
`context deadline exceeded`. -/
theorem handshake_timeout_reason_is_not_error_text :
    (attempts handshakeTimesOut scenario3)[0]?
        = some ⟨true, false, ["\x7b10.255.255.1 a.example\x7d i/o timeout".toList]⟩
      ∧ (handshakeTimesOut 0 ⟨"10.255.255.1".toList, "a.example".toList⟩).handshake
        = some ⟨true, "context deadline exceeded".toList⟩
      ∧ "\x7b10.255.255.1 a.example\x7d i/o timeout".toList
        ≠ "\x7b10.255.255.1 a.example\x7d context deadline exceeded".toList := by
  decide

/-- C7, amended: for every probed pair that fails, that is whatever the content
of the Known-Timeout Set when its worker reads it, provided it does not hold
the pair's IP, the entry is the pair followed by a reason.  When the
connection attempt fails with a timeout the reason is `i/o timeout` and the
pair's IP is added to the Known-Timeout Set.  When the connection attempt
fails for another cause the reason is the error's text and the set is
unchanged.  When the TLS handshake fails with a timeout the reason is
`i/o timeout`, and when it fails for another cause the reason is the error's
text; in both the set is unchanged. -/
theorem worker_failure_reason (net : Probe) (p : Pair) (timedoutIP : List GoString)
    (err : GoError) (hprobed : p.IP ∉ timedoutIP) :
    (net.dial = some err → err.Timeout = true →
        worker net p timedoutIP
          = (⟨true, false, [SprintPair p ++ " i/o timeout".toList]⟩, p.IP :: timedoutIP))
      ∧ (net.dial = some err → err.Timeout = false →
        worker net p timedoutIP
          = (⟨true, false, [SprintPair p ++ ' ' :: err.Error]⟩, timedoutIP))
      ∧ (net.dial = none → net.handshake = some err → err.Timeout = true →
        worker net p timedoutIP
          = (⟨true, false, [SprintPair p ++ " i/o timeout".toList]⟩, timedoutIP))
      ∧ (net.dial = none → net.handshake = some err → err.Timeout = false →
        worker net p timedoutIP
          = (⟨true, false, [SprintPair p ++ ' ' :: err.Error]⟩, timedoutIP)) := by
  rw [worker_probe _ p _ hprobed]
  refine ⟨?_, ?_, ?_, ?_⟩
  · intro hd hT
    rw [hd]
    simp [hT]
  · intro hd hT
    rw [hd]
    simp [hT]
  · intro hd hh hT
    rw [hd, hh]
    simp [hT]
  · intro hd hh hT
    rw [hd, hh]
    simp [hT]

/-- A pair probed on a network where the connection times out: the entry ends
in `i/o timeout` and the IP enters the Known-Timeout Set; and one probed on a
network that resets the handshake: the entry ends in the error's text and the
set is unchanged. -/
theorem worker_failure_reason_witness :
    "10.255.255.1".toList ∉ ([] : List GoString)
      ∧ worker (dialTimesOut 0 ⟨"10.255.255.1".toList, "a.example".toList⟩)
          ⟨"10.255.255.1".toList, "a.example".toList⟩ []
          = (⟨true, false, [SprintPair ⟨"10.255.255.1".toList, "a.example".toList⟩
                ++ " i/o timeout".toList]⟩,
              ["10.255.255.1".toList])
      ∧ worker ⟨none, some ⟨false, "connection reset by peer".toList⟩⟩
          ⟨"10.255.255.1".toList, "a.example".toList⟩ []
          = (⟨true, false, [SprintPair ⟨"10.255.255.1".toList, "a.example".toList⟩
                ++ ' ' :: "connection reset by peer".toList]⟩,
              []) :=
  ⟨by decide,
    (worker_failure_reason (dialTimesOut 0 ⟨"10.255.255.1".toList, "a.example".toList⟩)
      ⟨"10.255.255.1".toList, "a.example".toList⟩ []
      ⟨true, "dial tcp 10.255.255.1:443: i/o timeout".toList⟩ (by decide)).1
      (by decide) (by decide),
    (worker_failure_reason ⟨none, some ⟨false, "connection reset by peer".toList⟩⟩
      ⟨"10.255.255.1".toList, "a.example".toList⟩ []
      ⟨false, "connection reset by peer".toList⟩ (by decide)).2.2.2
      (by decide) (by decide) (by decide)⟩

/-! ## The byte-order mark -/

/-- C8 fails on the empty file: `f.Read` returns `0, io.EOF` at end of file,
and `TrimU8Bom` returns that error instead of succeeding with the offset at
0. -/
theorem TrimU8Bom_empty_file_is_EOF :
    TrimU8Bom (Open []) = (some IOError.EOF, Open []) := by
  decide

theorem TrimU8Bom_with_bom (rest : List Nat) :
    TrimU8Bom (Open (0xEF :: 0xBB :: 0xBF :: rest))
      = (none, { content := 0xEF :: 0xBB :: 0xBF :: rest, offset := 3 }) := by
  simp [TrimU8Bom, Open, File.Read]

theorem TrimU8Bom_without_bom (content : List Nat) (hne : content ≠ [])
    (hbom : content.take 3 ≠ [0xEF, 0xBB, 0xBF]) :
    TrimU8Bom (Open content) = (none, Open content) := by
  match content, hne, hbom with
  | [a], _, _ => simp [TrimU8Bom, Open, File.Read, File.SeekStart]
  | [a, b], _, _ => simp [TrimU8Bom, Open, File.Read, File.SeekStart]
  | a :: b :: c :: rest, _, hbom =>
    have h : ¬ (a = 0xEF ∧ b = 0xBB ∧ c = 0xBF) := by
      rintro ⟨rfl, rfl, rfl⟩
      exact hbom rfl
    simp only [TrimU8Bom, Open, File.Read, File.SeekStart]
    simp
    intro h1 h2 h3
    exact absurd ⟨h1, h2, h3⟩ h

/-- On every non-empty content `TrimU8Bom` succeeds; the scanner then reads the
content without the mark when it starts with `EF BB BF`, and the whole content
otherwise, also when it is shorter than 3 bytes. -/
theorem TrimU8Bom_nonempty (content : List Nat) (hne : content ≠ []) :
    ∃ f, TrimU8Bom (Open content) = (none, f) ∧ f.content = content
      ∧ (content.take 3 = [0xEF, 0xBB, 0xBF] → f.offset = 3 ∧ f.unread = content.drop 3)
      ∧ (content.take 3 ≠ [0xEF, 0xBB, 0xBF] → f.offset = 0 ∧ f.unread = content) := by
  by_cases hbom : content.take 3 = [0xEF, 0xBB, 0xBF]
  · match content, hbom with
    | a :: b :: c :: rest, hbom =>
      simp only [List.take_succ_cons, List.take_zero, List.cons.injEq, and_true] at hbom
      obtain ⟨rfl, rfl, rfl⟩ := hbom
      exact ⟨_, TrimU8Bom_with_bom rest, rfl, fun _ => ⟨rfl, rfl⟩, fun h => absurd rfl h⟩
    | [], hbom => simp at hbom
    | [a], hbom => simp at hbom
    | [a, b], hbom => simp at hbom
  · exact ⟨_, TrimU8Bom_without_bom content hne hbom, rfl, fun h => absurd h hbom,
      fun _ => ⟨rfl, rfl⟩⟩

/-! ## The worker pool, every interleaving -/

theorem countP_set (f : Worker → Bool) (l : List Worker) (k : Nat) (w w' : Worker)
    (h : l[k]? = some w) :
    (l.set k w').countP f + (if f w then 1 else 0)
      = l.countP f + (if f w' then 1 else 0) := by
  induction l generalizing k with
  | nil => simp at h
  | cons x xs ih =>
    cases k with
    | zero =>
      simp only [List.getElem?_cons_zero, Option.some.injEq] at h
      subst h
      simp only [List.set_cons_zero, List.countP_cons]
      omega
    | succ k =>
      simp only [List.getElem?_cons_succ] at h
      simp only [List.set_cons_succ, List.countP_cons]
      have := ih k h
      omega

theorem Inv_start (T : Nat) (pairs : List Pair) : (Pool.start pairs).Inv T := by
  simp [Pool.Inv, Pool.start, LoopPC.holdsSlot]

theorem Inv_keep (T : Nat) (s s' : Pool) (k : Nat) (w w' : Worker) (hinv : s.Inv T)
    (hk : s.workers[k]? = some w) (hw : s'.workers = s.workers.set k w')
    (hloop : s'.loop = s.loop) (hlim : s'.th_lim = s.th_lim)
    (hh : w'.holdsSlot = w.holdsSlot) (hr : w'.released = w.released) : s'.Inv T := by
  obtain ⟨h1, h2, h3⟩ := hinv
  have hmem : w ∈ s.workers := List.getElem?_mem hk
  refine ⟨by rw [hlim]; exact h1, ?_, ?_⟩
  · have hc := countP_set Worker.holdsSlot s.workers k w w' hk
    rw [hh] at hc
    rw [hw, hloop, hlim]
    omega
  · intro x hx
    rw [hw] at hx
    rcases List.mem_or_eq_of_mem_set hx with hx | hx
    · exact h3 x hx
    · rw [hx, hh, hr]
      exact h3 w hmem

theorem Inv_release (T : Nat) (s s' : Pool) (k : Nat) (w w' : Worker) (hinv : s.Inv T)
    (hk : s.workers[k]? = some w) (hw : s'.workers = s.workers.set k w')
    (hloop : s'.loop = s.loop) (hlim : s'.th_lim = s.th_lim - 1)
    (hh : w.holdsSlot = true) (hh' : w'.holdsSlot = false)
    (hr : w'.released = w.released + 1) : s'.Inv T := by
  obtain ⟨h1, h2, h3⟩ := hinv
  have hmem : w ∈ s.workers := List.getElem?_mem hk
  have hc := countP_set Worker.holdsSlot s.workers k w w' hk
  simp only [hh, hh', if_true] at hc
  refine ⟨by rw [hlim]; omega, ?_, ?_⟩
  · rw [hw, hloop, hlim]
    simp only [Bool.false_eq_true, if_false] at hc
    omega
  · intro x hx
    rw [hw] at hx
    rcases List.mem_or_eq_of_mem_set hx with hx | hx
    · exact h3 x hx
    · have := h3 w hmem
      rw [hh] at this
      simp only [if_true] at this
      rw [hx, hh', hr, this]
      simp

theorem Inv_stepLoop (T : Nat) (s s' : Pool) (hinv : s.Inv T)
    (hstep : stepLoop T s = some s') : s'.Inv T := by
  obtain ⟨h1, h2, h3⟩ := hinv
  unfold stepLoop at hstep
  cases hl : s.loop with
  | recv =>
    rw [hl] at hstep h2
    cases hch : s.ch with
    | nil =>
      rw [hch] at hstep
      simp only [Option.some.injEq] at hstep
      subst hstep
      exact ⟨h1, by simpa [LoopPC.holdsSlot] using h2, h3⟩
    | cons p ch =>
      rw [hch] at hstep
      simp only [Option.some.injEq] at hstep
      subst hstep
      exact ⟨h1, by simpa [LoopPC.holdsSlot] using h2, h3⟩
  | acquire p =>
    rw [hl] at hstep h2
    by_cases hlt : s.th_lim < T
    · simp only [hlt, if_true, Option.some.injEq] at hstep
      subst hstep
      refine ⟨by simp only; omega, ?_, h3⟩
      simp only [LoopPC.holdsSlot] at h2 ⊢
      omega
    · simp [hlt] at hstep
  | add p =>
    rw [hl] at hstep h2
    simp only [Option.some.injEq] at hstep
    subst hstep
    exact ⟨h1, by simpa [LoopPC.holdsSlot] using h2, h3⟩
  | spawn p =>
    rw [hl] at hstep h2
    simp only [Option.some.injEq] at hstep
    subst hstep
    refine ⟨h1, ?_, ?_⟩
    · simp only [LoopPC.holdsSlot, List.countP_append, List.countP_cons, List.countP_nil,
        Worker.holdsSlot] at h2 ⊢
      simpa using h2
    · intro w hw
      simp only [List.mem_append, List.mem_singleton] at hw
      rcases hw with hw | hw
      · exact h3 w hw
      · subst hw
        simp [Worker.holdsSlot]
  | wait =>
    rw [hl] at hstep h2
    by_cases h0 : s.wg = 0
    · simp only [h0, if_true, Option.some.injEq] at hstep
      subst hstep
      exact ⟨h1, by simpa [LoopPC.holdsSlot] using h2, h3⟩
    · simp [h0] at hstep
  | close =>
    rw [hl] at hstep h2
    simp only [Option.some.injEq] at hstep
    subst hstep
    exact ⟨h1, by simpa [LoopPC.holdsSlot] using h2, h3⟩
  | done =>
    rw [hl] at hstep
    simp at hstep

theorem Inv_stepWorker (T : Nat) (s s' : Pool) (k : Nat) (net : Probe) (hinv : s.Inv T)
    (hstep : stepWorker s k net = some s') : s'.Inv T := by
  unfold stepWorker at hstep
  cases hk : s.workers[k]? with
  | none => simp [hk] at hstep
  | some w =>
    rw [hk] at hstep
    simp only at hstep
    cases hpc : w.pc with
    | check =>
      rw [hpc] at hstep
      simp only at hstep
      by_cases hm : w.p.IP ∈ s.timedoutIP
      · simp only [hm, if_true, Option.some.injEq] at hstep
        subst hstep
        exact Inv_keep T s _ k w _ hinv hk rfl rfl rfl (by simp [Worker.holdsSlot, hpc]) rfl
      · simp only [hm, if_false, Option.some.injEq] at hstep
        subst hstep
        exact Inv_keep T s _ k w _ hinv hk rfl rfl rfl (by simp [Worker.holdsSlot, hpc]) rfl
    | hello =>
      rw [hpc] at hstep
      simp only at hstep
      rcases hH : Hello net w.p s.timedoutIP with ⟨⟨ok, err⟩, t⟩
      rw [hH] at hstep
      simp only at hstep
      cases ok with
      | true =>
        simp only [Bool.not_true, Bool.false_eq_true, if_false, Option.some.injEq] at hstep
        subst hstep
        exact Inv_keep T s _ k w _ hinv hk rfl rfl rfl (by simp [Worker.holdsSlot, hpc]) rfl
      | false =>
        by_cases hT : IsTimeout err = true
        · simp only [Bool.not_false, if_true, hT, Option.some.injEq] at hstep
          subst hstep
          exact Inv_keep T s _ k w _ hinv hk rfl rfl rfl (by simp [Worker.holdsSlot, hpc]) rfl
        · have hT' : IsTimeout err = false := by simpa using hT
          simp only [Bool.not_false, if_true, hT', Bool.false_eq_true, if_false,
            Option.some.injEq] at hstep
          subst hstep
          exact Inv_keep T s _ k w _ hinv hk rfl rfl rfl (by simp [Worker.holdsSlot, hpc]) rfl
    | send entry =>
      rw [hpc] at hstep
      simp only at hstep
      by_cases hcap : s.result.length < ChannelCap
      · simp only [hcap, if_true, Option.some.injEq] at hstep
        subst hstep
        exact Inv_keep T s _ k w _ hinv hk rfl rfl rfl (by simp [Worker.holdsSlot, hpc]) rfl
      · simp [hcap] at hstep
    | release =>
      rw [hpc] at hstep
      simp only at hstep
      by_cases hpos : 0 < s.th_lim
      · simp only [hpos, if_true, Option.some.injEq] at hstep
        subst hstep
        exact Inv_release T s _ k w _ hinv hk rfl rfl rfl (by simp [Worker.holdsSlot, hpc])
          (by simp [Worker.holdsSlot]) rfl
      · simp [hpos] at hstep
    | wgDone =>
      rw [hpc] at hstep
      simp only at hstep
      by_cases hpos : 0 < s.wg
      · simp only [hpos, if_true, Option.some.injEq] at hstep
        subst hstep
        exact Inv_keep T s _ k w _ hinv hk rfl rfl rfl (by simp [Worker.holdsSlot, hpc]) rfl
      · simp [hpos] at hstep
    | exited =>
      rw [hpc] at hstep
      simp at hstep

theorem Inv_step (T : Nat) (s s' : Pool) (a : Action) (hinv : s.Inv T)
    (hstep : step T s a = some s') : s'.Inv T := by
  cases a with
  | loop => exact Inv_stepLoop T s s' hinv hstep
  | worker k net => exact Inv_stepWorker T s s' k net hinv hstep
  | consume =>
    unfold step at hstep
    cases hr : s.result with
    | nil => simp [hr] at hstep
    | cons e rest =>
      rw [hr] at hstep
      simp only [Option.some.injEq] at hstep
      subst hstep
      exact hinv

theorem Inv_run (T : Nat) (schedule : List Action) (s s' : Pool) (hinv : s.Inv T)
    (hrun : run T s schedule = some s') : s'.Inv T := by
  induction schedule generalizing s with
  | nil =>
    simp only [run, Option.some.injEq] at hrun
    subst hrun
    exact hinv
  | cons a schedule ih =>
    unfold run at hrun
    cases hs : step T s a with
    | none => simp [hs] at hrun
    | some s1 =>
      rw [hs] at hrun
      exact ih s1 (Inv_step T s s1 a hinv hs) hrun

theorem inFlight_eq_holdsSlot (T : Nat) (s : Pool) (hinv : s.Inv T) :
    s.workers.countP Worker.inFlight = s.workers.countP Worker.holdsSlot := by
  apply List.countP_congr
  intro w hw
  have := hinv.2.2 w hw
  unfold Worker.inFlight
  cases hh : w.holdsSlot
  · simp [hh] at this
    simp [this]
  · simp [hh] at this
    simp [this]

/-- C9: for every limit `T` (`DialThreadsLimit`), every content of `ch` and
every schedule of the goroutines of `ConsumePairs`, in the state reached the
workers that have acquired a slot of `th_lim` and not yet released it are at
most `T`; no worker has released more than once and a worker that has ended,
by whichever path (skip, success, failure), has released exactly once; and a
worker that stands at its release is never blocked there. -/
theorem ConsumePairs_at_most_T_probes (T : Nat) (pairs : List Pair) (schedule : List Action)
    (s : Pool) (hrun : run T (Pool.start pairs) schedule = some s) :
    s.workers.countP Worker.inFlight ≤ T
      ∧ (∀ w ∈ s.workers, w.released ≤ 1 ∧ (w.pc = WorkerPC.exited → w.released = 1))
      ∧ (∀ k w net, s.workers[k]? = some w → w.pc = WorkerPC.release →
          ∃ s', step T s (Action.worker k net) = some s'
            ∧ s'.workers[k]? = some { w with pc := WorkerPC.wgDone, released := 1 }) := by
  have hinv := Inv_run T schedule _ s (Inv_start T pairs) hrun
  refine ⟨?_, ?_, ?_⟩
  · rw [inFlight_eq_holdsSlot T s hinv]
    have := hinv.2.1
    have := hinv.1
    omega
  · intro w hw
    have h3 := hinv.2.2 w hw
    constructor
    · rw [h3]
      split <;> omega
    · intro hpc
      rw [h3]
      simp [Worker.holdsSlot, hpc]
  · intro k w net hk hpc
    have hmem : w ∈ s.workers := List.getElem?_mem hk
    have hh : w.holdsSlot = true := by simp [Worker.holdsSlot, hpc]
    have hpos : 0 < s.workers.countP Worker.holdsSlot :=
      List.countP_pos_iff.mpr ⟨w, hmem, hh⟩
    have hlim : 0 < s.th_lim := by
      have := hinv.2.1
      omega
    have hrel : w.released = 0 := by
      have := hinv.2.2 w hmem
      rw [hh] at this
      simpa using this
    have hlt : k < s.workers.length := by
      rcases Nat.lt_or_ge k s.workers.length with h | h
      · exact h
      · rw [List.getElem?_eq_none h] at hk
        exact absurd hk (by simp)
    refine ⟨{ s with
        th_lim := s.th_lim - 1,
        workers := s.workers.set k
          { w with pc := WorkerPC.wgDone, released := w.released + 1 } }, ?_, ?_⟩
    · simp only [step, stepWorker, hk, hpc, hlim, if_true]
    · simp [hlt, hrel]

/-- Scenario 3 with one slot, run to the end: never more than one worker in
flight, and both workers, one ending by the failure path and one by the skip
path, have released once. -/
theorem ConsumePairs_at_most_T_probes_witness :
    (run 1 (Pool.start scenario3) schedule3).map
        (fun s => (s.workers.map (fun w => (w.pc, w.released)), s.th_lim, s.closed))
        = some ([(WorkerPC.exited, 1), (WorkerPC.exited, 1)], 0, true)
      ∧ ∃ s, run 1 (Pool.start scenario3) schedule3 = some s
          ∧ s.workers.countP Worker.inFlight ≤ 1
          ∧ (∀ w ∈ s.workers, w.released ≤ 1 ∧ (w.pc = WorkerPC.exited → w.released = 1)) := by
  refine ⟨by decide, ?_⟩
  obtain ⟨s, hs⟩ := Option.isSome_iff_exists.mp
    (by decide : (run 1 (Pool.start scenario3) schedule3).isSome = true)
  have h := ConsumePairs_at_most_T_probes 1 scenario3 schedule3 s hs
  exact ⟨s, hs, h.1, h.2.1⟩

/-! ## The worker function inside the pool -/

/-- Scenario 3 with two slots on a network where connections time out: under
`schedule3TwoSlots` each worker reads `timedoutIP` before the other has
written it, so both pairs are probed and two entries are sent. -/
theorem two_slots_both_pairs_probed :
    (run 2 (Pool.start scenario3) schedule3TwoSlots).map
        (fun s => (s.workers.map (fun w => (w.pc, w.released)), s.result, s.closed))
      = some ([(WorkerPC.exited, 1), (WorkerPC.exited, 1)],
          ["\x7b10.255.255.1 a.example\x7d i/o timeout".toList,
           "\x7b10.255.255.1 b.example\x7d i/o timeout".toList], true) := by
  decide

theorem run_cons_of_step (T : Nat) (s s1 : Pool) (a : Action) (schedule : List Action)
    (h : step T s a = some s1) : run T s (a :: schedule) = run T s1 schedule := by
  rw [run, h]

theorem step_check (T : Nat) (s : Pool) (k : Nat) (w : Worker) (net : Probe)
    (hk : s.workers[k]? = some w) (hpc : w.pc = WorkerPC.check) :
    step T s (Action.worker k net)
      = some { s with
          workers := s.workers.set k
            { w with
              pc := (if w.p.IP ∈ s.timedoutIP then WorkerPC.release else WorkerPC.hello) } } := by
  simp only [step, stepWorker, hk, hpc]
  by_cases hmem : w.p.IP ∈ s.timedoutIP
  · simp only [hmem, if_true]
  · simp only [hmem, if_false]

theorem step_hello (T : Nat) (s : Pool) (k : Nat) (w : Worker) (net : Probe)
    (hk : s.workers[k]? = some w) (hpc : w.pc = WorkerPC.hello) :
    step T s (Action.worker k net)
      = some { s with
          timedoutIP := (Hello net w.p s.timedoutIP).2,
          workers := s.workers.set k
            { w with
              pc := (if (Hello net w.p s.timedoutIP).1.1 = true then WorkerPC.release
                else if IsTimeout (Hello net w.p s.timedoutIP).1.2 = true then
                  WorkerPC.send (SprintPair w.p ++ " i/o timeout".toList)
                else
                  WorkerPC.send
                    (SprintPair w.p ++ ' ' :: SprintError (Hello net w.p s.timedoutIP).1.2)) } } := by
  simp only [step, stepWorker, hk, hpc]
  rcases hH : Hello net w.p s.timedoutIP with ⟨⟨ok, err⟩, t⟩
  cases ok
  · cases hT : IsTimeout err <;> simp [hT]
  · simp

theorem step_send (T : Nat) (s : Pool) (k : Nat) (w : Worker) (net : Probe) (entry : GoString)
    (hk : s.workers[k]? = some w) (hpc : w.pc = WorkerPC.send entry)
    (hroom : s.result.length < ChannelCap) :
    step T s (Action.worker k net)
      = some { s with
          result := s.result ++ [entry],
          workers := s.workers.set k { w with pc := WorkerPC.release } } := by
  simp only [step, stepWorker, hk, hpc, hroom, if_true]

theorem set_getElem? (l : List Worker) (k : Nat) (x : Worker) (hlt : k < l.length) :
    (l.set k x)[k]? = some x := by
  simp [hlt]

/-- The state of the pool after the worker `k`, standing at `Hello(p)`, has
called `Hello` and sent its entry if `Hello` failed. -/
theorem run_hello_send (T : Nat) (s : Pool) (k : Nat) (w : Worker) (net : Probe)
    (hk : s.workers[k]? = some w) (hpc : w.pc = WorkerPC.hello)
    (hroom : s.result.length < ChannelCap) :
    ∃ n, run T s (List.replicate n (Action.worker k net))
      = some { s with
          timedoutIP := (Hello net w.p s.timedoutIP).2,
          result := s.result ++
            (if (Hello net w.p s.timedoutIP).1.1 = true then []
              else if IsTimeout (Hello net w.p s.timedoutIP).1.2 = true then
                [SprintPair w.p ++ " i/o timeout".toList]
              else [SprintPair w.p ++ ' ' :: SprintError (Hello net w.p s.timedoutIP).1.2]),
          workers := s.workers.set k { w with pc := WorkerPC.release } } := by
  have hlt : k < s.workers.length := by
    rcases Nat.lt_or_ge k s.workers.length with h | h
    · exact h
    · rw [List.getElem?_eq_none h] at hk
      exact absurd hk (by simp)
  have h2 := step_hello T s k w net hk hpc
  by_cases hok : (Hello net w.p s.timedoutIP).1.1 = true
  · simp only [hok, if_true] at h2 ⊢
    refine ⟨1, ?_⟩
    rw [List.replicate, run_cons_of_step T s _ _ _ h2]
    simp [run]
  · simp only [hok, Bool.false_eq_true, if_false] at h2 ⊢
    by_cases hT : IsTimeout (Hello net w.p s.timedoutIP).1.2 = true
    · simp only [hT, if_true] at h2 ⊢
      have h3 := step_send T
        { s with
          timedoutIP := (Hello net w.p s.timedoutIP).2,
          workers := s.workers.set k
            { w with pc := WorkerPC.send (SprintPair w.p ++ " i/o timeout".toList) } }
        k { w with pc := WorkerPC.send (SprintPair w.p ++ " i/o timeout".toList) } net
        (SprintPair w.p ++ " i/o timeout".toList)
        (set_getElem? s.workers k _ hlt) rfl hroom
      simp only [List.set_set] at h3
      refine ⟨2, ?_⟩
      rw [List.replicate, run_cons_of_step T s _ _ _ h2, List.replicate,
        run_cons_of_step T _ _ _ _ h3]
      simp [run]
    · simp only [hT, Bool.false_eq_true, if_false] at h2 ⊢
      have h3 := step_send T
        { s with
          timedoutIP := (Hello net w.p s.timedoutIP).2,
          workers := s.workers.set k
            { w with
              pc := WorkerPC.send
                (SprintPair w.p ++ ' ' :: SprintError (Hello net w.p s.timedoutIP).1.2) } }
        k
        { w with
          pc := WorkerPC.send
            (SprintPair w.p ++ ' ' :: SprintError (Hello net w.p s.timedoutIP).1.2) }
        net (SprintPair w.p ++ ' ' :: SprintError (Hello net w.p s.timedoutIP).1.2)
        (set_getElem? s.workers k _ hlt) rfl hroom
      simp only [List.set_set] at h3
      refine ⟨2, ?_⟩
      rw [List.replicate, run_cons_of_step T s _ _ _ h2, List.replicate,
        run_cons_of_step T _ _ _ _ h3]
      simp [run]

theorem worker_sent_eq (net : Probe) (p : Pair) (t : List GoString) (hmem : p.IP ∉ t) :
    (worker net p t).1.sent
        = (if (Hello net p t).1.1 = true then []
            else if IsTimeout (Hello net p t).1.2 = true then
              [SprintPair p ++ " i/o timeout".toList]
            else [SprintPair p ++ ' ' :: SprintError (Hello net p t).1.2])
      ∧ (worker net p t).2 = (Hello net p t).2 := by
  unfold worker
  simp only [hmem, if_false]
  rcases hH : Hello net p t with ⟨⟨ok, err⟩, t1⟩
  cases ok
  · cases hT : IsTimeout err <;> simp [hT]
  · simp

/-- In any state of the pool, for any limit, a worker standing at its test of
`timedoutIP` that runs to its deferred function without another goroutine
stepping in between does what `worker` computes from the content of
`timedoutIP` at that test: it sends the entries of `worker` on `result` and
leaves `timedoutIP` as `worker` does, and it still holds its slot. -/
theorem pool_worker_runs_worker (T : Nat) (s : Pool) (k : Nat) (w : Worker) (net : Probe)
    (hk : s.workers[k]? = some w) (hpc : w.pc = WorkerPC.check)
    (hroom : s.result.length < ChannelCap) :
    ∃ n s', run T s (List.replicate n (Action.worker k net)) = some s'
      ∧ s'.workers = s.workers.set k { w with pc := WorkerPC.release }
      ∧ s'.result = s.result ++ (worker net w.p s.timedoutIP).1.sent
      ∧ s'.timedoutIP = (worker net w.p s.timedoutIP).2
      ∧ s'.th_lim = s.th_lim := by
  have hlt : k < s.workers.length := by
    rcases Nat.lt_or_ge k s.workers.length with h | h
    · exact h
    · rw [List.getElem?_eq_none h] at hk
      exact absurd hk (by simp)
  have h1 := step_check T s k w net hk hpc
  by_cases hmem : w.p.IP ∈ s.timedoutIP
  · simp only [hmem, if_true] at h1
    refine ⟨1, { s with workers := s.workers.set k { w with pc := WorkerPC.release } },
      ?_, rfl, ?_, ?_, rfl⟩
    · rw [List.replicate, run_cons_of_step T s _ _ _ h1]
      rfl
    · simp [worker_skip _ _ _ hmem]
    · simp [worker_skip _ _ _ hmem]
  · simp only [hmem, if_false] at h1
    obtain ⟨n, hn⟩ := run_hello_send T
      { s with workers := s.workers.set k { w with pc := WorkerPC.hello } } k
      { w with pc := WorkerPC.hello } net (set_getElem? s.workers k _ hlt) rfl hroom
    obtain ⟨hsent, hset⟩ := worker_sent_eq net w.p s.timedoutIP hmem
    have hrun : run T s (List.replicate (n + 1) (Action.worker k net))
        = run T { s with workers := s.workers.set k { w with pc := WorkerPC.hello } }
            (List.replicate n (Action.worker k net)) := by
      rw [List.replicate_succ, run_cons_of_step T s _ _ _ h1]
    rw [hn] at hrun
    exact ⟨n + 1, _, hrun, by simp only [List.set_set], by rw [hsent], by rw [hset], rfl⟩

end HostsChecker
